import Mathlib

/-!
# Pod lifetime operator: the reconciliation engine and the periodic sweep

A shallow embedding of `internal/controller/poddeleter_controller.go`
(`Reconcile`, `SetupWithManager`, `recheckExpiredPods`) together with the parts of
the Go standard library the controller's decision depends on
(`time.ParseDuration`), followed by theorems about them.

Conventions of the embedding:

* a `time.Time` is an instant, an integer number of nanoseconds since the Unix
  epoch; a `time.Duration` is an integer number of nanoseconds (Go: `int64`);
  `t.Add(d)` is `t + d` and `t.After(u)` is `t > u`, which is what Go computes for
  every instant whose year has four digits, as the timestamps of the API have;
* the object store (`client.Client`) and the wall clock are an environment: every
  call takes the environment state and returns the answer with the next state;
* every function that talks to the store returns the list of store calls it made.
-/

namespace PodDeleter

/-! ## Go's `time` package -/

/-- An instant: nanoseconds since the Unix epoch (`time.Time`, `metav1.Time`). -/
abbrev Time := Int

/-- A `time.Duration`: a signed count of nanoseconds. -/
abbrev Duration := Int

def Nanosecond : Nat := 1
def Microsecond : Nat := 1000 * Nanosecond
def Millisecond : Nat := 1000 * Microsecond
def Second : Nat := 1000 * Millisecond
def Minute : Nat := 60 * Second
def Hour : Nat := 60 * Minute

/-- The table `unitMap` of `time/format.go`, keyed by the unit's characters. -/
def unitMap (u : List Char) : Option Nat :=
  if u = ['n', 's'] then some Nanosecond
  else if u = ['u', 's'] then some Microsecond
  else if u = ['µ', 's'] then some Microsecond
  else if u = ['μ', 's'] then some Microsecond
  else if u = ['m', 's'] then some Millisecond
  else if u = ['s'] then some Second
  else if u = ['m'] then some Minute
  else if u = ['h'] then some Hour
  else none

/-- The constant `1<<63` of the overflow tests. -/
def two63 : Nat := 9223372036854775808

/-- The modulus of `uint64` arithmetic. -/
def two64 : Nat := 18446744073709551616

/-- The test `c < '0' || c > '9'` negated: `c` is a decimal digit. -/
def isDigit (c : Char) : Bool := decide ('0' ≤ c) && decide (c ≤ '9')

/-- The function `leadingInt` of `time/format.go`: consumes the leading `[0-9]*`,
started with the accumulator `x`; `none` is `errLeadingInt` (overflow). -/
def leadingInt : List Char → Nat → Option (Nat × List Char)
  | [], x => some (x, [])
  | c :: cs, x =>
    if !isDigit c then some (x, c :: cs)
    else if x > two63 / 10 then none
    else
      let y := (x * 10 + c.toNat - ('0' : Char).toNat) % two64
      if y > two63 then none else leadingInt cs y

/-! ### binary64 arithmetic used for the fractional part

`ParseDuration` adds `uint64(float64(f) * (float64(unit) / scale))` for a fraction
`f / scale`.  Non-negative binary64 values are represented exactly, as a fraction
of two naturals, or as `+Inf`. -/

/-- A non-negative binary64 value: the fraction `num / den`, or `+Inf`. -/
inductive F64 where
  | fin (num den : Nat)
  | inf
  deriving Repr, DecidableEq

/-- Position of the highest set bit plus one (`0` for `0`); `fuel` bounds the search. -/
def bitLen : Nat → Nat → Nat
  | 0, _ => 0
  | fuel + 1, n => if n = 0 then 0 else bitLen fuel (n / 2) + 1

/-- Round the non-negative rational `n / d` (`d > 0`) to the nearest binary64
value, ties to even: 53 significant bits, least exponent `-1074` (subnormals),
overflow to `+Inf` from `2^1024`. -/
def roundF64 (n d : Nat) : F64 :=
  if n = 0 then F64.fin 0 1
  else
    -- `n / d` lies strictly between `2^(ln - ld - 1)` and `2^(ln - ld + 1)`
    let ln : Int := bitLen n n
    let ld : Int := bitLen d d
    -- scaled so that `N / D = (n / d) / 2^e`
    let scaled : Int → Nat × Nat := fun e =>
      if 0 ≤ e then (n, d * 2 ^ e.toNat) else (n * 2 ^ (-e).toNat, d)
    let e0 : Int := max (ln - ld - 52) (-1074)
    let e : Int :=
      if (scaled e0).1 / (scaled e0).2 < 2 ^ 52 then max (e0 - 1) (-1074) else e0
    let N := (scaled e).1
    let D := (scaled e).2
    let q := N / D
    let r := N % D
    let m := if 2 * r < D then q else if 2 * r > D then q + 1
             else if q % 2 = 0 then q else q + 1
    if 0 ≤ e then
      (if m * 2 ^ e.toNat ≥ 2 ^ 1024 then F64.inf else F64.fin (m * 2 ^ e.toNat) 1)
    else F64.fin m (2 ^ (-e).toNat)

/-- The conversion `float64(x)` of a `uint64`. -/
def F64.ofNat (x : Nat) : F64 := roundF64 x 1

/-- The binary64 product. The operands met here are never `0 * Inf`. -/
def F64.mul : F64 → F64 → F64
  | F64.fin a b, F64.fin c d => roundF64 (a * c) (b * d)
  | _, _ => F64.inf

/-- The binary64 quotient of a finite non-zero value by a positive value. -/
def F64.div : F64 → F64 → F64
  | F64.fin a b, F64.fin c d => roundF64 (a * d) (b * c)
  | F64.fin _ _, F64.inf => F64.fin 0 1
  | F64.inf, _ => F64.inf

/-- The conversion `uint64(x)` of a binary64 value within range: truncation. -/
def F64.toUInt64 : F64 → Nat
  | F64.fin a b => (a / b) % two64
  | F64.inf => two63

/-- The function `leadingFraction` of `time/format.go`: consumes the leading
`[0-9]*`; on overflow it stops accumulating precision. Returns `x`, `scale`, rest. -/
def leadingFraction : List Char → Nat → F64 → Bool → Nat × F64 × List Char
  | [], x, scale, _ => (x, scale, [])
  | c :: cs, x, scale, overflow =>
    if !isDigit c then (x, scale, c :: cs)
    else if overflow then leadingFraction cs x scale true
    else if x > (two63 - 1) / 10 then leadingFraction cs x scale true
    else
      let y := (x * 10 + c.toNat - ('0' : Char).toNat) % two64
      if y > two63 then leadingFraction cs x scale true
      else leadingFraction cs y (F64.mul scale (F64.ofNat 10)) false

/-- The test of the unit scan: the unit ends at `.` or a digit. -/
def endsUnit (c : Char) : Bool := c == '.' || isDigit c

/-- The step `Consume (\.[0-9]*)?` of `time.ParseDuration` on the string left after
the integer part: the fraction `f`, its `scale`, the rest of the string, and `post`,
whether a digit was consumed after the period. -/
def leadingPeriod (s : List Char) : Nat × F64 × List Char × Bool :=
  match s with
  | '.' :: s2 =>
    let r := leadingFraction s2 0 (F64.ofNat 1) false
    (r.1, r.2.1, r.2.2, s2.length != r.2.2.length)
  | _ => (0, F64.ofNat 1, s, false)

/-- One round of the loop `for s != ""` of `time.ParseDuration`, on the non-empty
string `c :: cs`: one group `[0-9]*(\.[0-9]*)?[a-z]+`. Returns the value `v` of the
group in nanoseconds (a `uint64`) and the rest of the string; `none` is an error
return. -/
def parseGroup (c : Char) (cs : List Char) : Option (Nat × List Char) :=
  -- The next character must be [0-9.]
  if !(c == '.' || isDigit c) then none
  else
    -- Consume [0-9]*
    match leadingInt (c :: cs) 0 with
    | none => none
    | some (v, s1) =>
      let pre := (c :: cs).length != s1.length
      -- Consume (\.[0-9]*)?
      let frac := leadingPeriod s1
      let f := frac.1
      let scale := frac.2.1
      let s3 := frac.2.2.1
      let post := frac.2.2.2
      if !pre && !post then none
      else
        -- Consume unit.
        let u := s3.takeWhile (fun c => !endsUnit c)
        let s4 := s3.dropWhile (fun c => !endsUnit c)
        if u.length = 0 then none
        else
          match unitMap u with
          | none => none
          | some unit =>
            if v > two63 / unit then none
            else
              let v1 := (v * unit) % two64
              let v2 :=
                if f > 0 then
                  (v1 + F64.toUInt64 (F64.mul (F64.ofNat f)
                    (F64.div (F64.ofNat unit) scale))) % two64
                else v1
              if f > 0 ∧ v2 > two63 then none else some (v2, s4)

/-- The loop `for s != ""` of `time.ParseDuration`; `d` is the duration accumulated
so far (a `uint64`). Every round consumes at least one character, so `s.length`
rounds are enough (`parseGroups_fuel`). `none` is the error return. -/
def parseGroups : Nat → List Char → Nat → Option Nat
  | _, [], d => some d
  | 0, _ :: _, _ => none
  | fuel + 1, c :: cs, d =>
    match parseGroup c cs with
    | none => none
    | some (v, rest) =>
      let d1 := (d + v) % two64
      if d1 > two63 then none else parseGroups fuel rest d1

/-- The function `time.ParseDuration` on the characters of the string:
`[-+]?([0-9]*(\.[0-9]*)?[a-z]+)+`. `none` is the error return. -/
def parseDurationChars (orig : List Char) : Option Duration :=
  -- Consume [-+]?
  let neg : Bool := match orig with
    | c :: _ => c == '-'
    | [] => false
  let s : List Char := match orig with
    | c :: cs => if c == '-' || c == '+' then cs else c :: cs
    | [] => []
  -- Special case: if all that is left is "0", this is zero.
  if s = ['0'] then some 0
  else if s = [] then none
  else
    match parseGroups s.length s 0 with
    | none => none
    | some d =>
      if neg then some (-(d : Int))
      else if d > two63 - 1 then none
      else some (d : Int)

/-- Go's `time.ParseDuration`. Go reads the string byte by byte; every test it makes
singles out an ASCII character, so on the characters of a string the result is the
same. -/
def ParseDuration (s : String) : Option Duration := parseDurationChars s.data

/-! ## The Kubernetes data model (`corev1`, `metav1`, `types`) -/

/-- The label key `lifetimeLabel` of the controller. -/
def lifetimeLabel : String := "pod.kubernetes.io/lifetime"

/-- An object identity (`types.NamespacedName`, `client.ObjectKey`). -/
structure NamespacedName where
  Namespace : String
  Name : String
  deriving DecidableEq, Repr

/-- The type `corev1.ContainerStateRunning`. -/
structure ContainerStateRunning where
  StartedAt : Time
  deriving DecidableEq, Repr

/-- The type `corev1.ContainerState`; `Running` is a pointer, `none` is `nil`. -/
structure ContainerState where
  Running : Option ContainerStateRunning
  deriving DecidableEq, Repr

/-- The type `corev1.ContainerStatus`. -/
structure ContainerStatus where
  State : ContainerState
  deriving DecidableEq, Repr

/-- The type `corev1.PodStatus`. -/
structure PodStatus where
  ContainerStatuses : List ContainerStatus
  deriving DecidableEq, Repr

/-- The type `corev1.Pod`: identity, labels (a map, here an association list read
with `List.lookup`) and status. -/
structure Pod where
  Namespace : String
  Name : String
  Labels : List (String × String)
  Status : PodStatus
  deriving DecidableEq, Repr

/-- The function `client.ObjectKeyFromObject`. -/
def ObjectKeyFromObject (pod : Pod) : NamespacedName := ⟨pod.Namespace, pod.Name⟩

/-- An error returned by the store; `notFound` are the errors for which
`apierrors.IsNotFound` holds. -/
inductive APIError where
  | notFound
  | other (message : String)
  deriving DecidableEq, Repr

/-- The function `client.IgnoreNotFound`: `nil` for a NotFound error. -/
def IgnoreNotFound : Option APIError → Option APIError
  | some APIError.notFound => none
  | e => e

/-! ## The environment: object store and clock -/

/-- The calls of `client.Client` the controller uses, and `time.Now`, over an
environment state `σ`. `Delete` addresses the object by its namespace and name. -/
structure Client (σ : Type) where
  Get : NamespacedName → σ → Except APIError Pod × σ
  Delete : NamespacedName → σ → Option APIError × σ
  Now : σ → Time × σ
  List : σ → Except APIError (List Pod) × σ

/-- A call that reached the store. -/
inductive Call where
  | get (key : NamespacedName)
  | delete (key : NamespacedName)
  | list
  deriving DecidableEq, Repr

/-- Whether a call is a delete. -/
def Call.isDelete : Call → Bool
  | Call.delete _ => true
  | _ => false

/-- Whether a call is a read of one object. -/
def Call.isGet : Call → Bool
  | Call.get _ => true
  | _ => false

/-- What one invocation of `Reconcile` did: the returned error (`none` is `nil`),
the store calls it made in order, and the environment it left. -/
structure Outcome (σ : Type) where
  err : Option APIError
  calls : List Call
  state : σ

/-! ## The reconciliation engine -/

/-- The loop of `Reconcile` over `pod.Status.ContainerStatuses` that finds the
container with the maximum start time; `none` is the `nil` pointer. -/
def maxStartTime (statuses : List ContainerStatus) : Option Time :=
  statuses.foldl
    (fun (maxStart : Option Time) (status : ContainerStatus) =>
      match status.State.Running with
      | some running =>
        match maxStart with
        | none => some running.StartedAt
        | some m => if running.StartedAt > m then some running.StartedAt else some m
      | none => maxStart)
    none

/-- The method `PodDeleterReconciler.Reconcile`. -/
def Reconcile {σ : Type} (r : Client σ) (req : NamespacedName) (s : σ) : Outcome σ :=
  -- Fetch the pod object
  match r.Get req s with
  | (Except.error err, s1) => ⟨IgnoreNotFound (some err), [Call.get req], s1⟩
  | (Except.ok pod, s1) =>
    -- Check if the pod has the lifetime label
    match pod.Labels.lookup lifetimeLabel with
    | none => ⟨none, [Call.get req], s1⟩
    | some lifetimeStr =>
      -- Parse the label value to get the lifetime in seconds
      match ParseDuration (lifetimeStr ++ "s") with
      | none => ⟨none, [Call.get req], s1⟩
      | some lifetimeSecond =>
        -- Find the container with the maximum start time
        match maxStartTime pod.Status.ContainerStatuses with
        | none => ⟨none, [Call.get req], s1⟩
        | some maxStart =>
          -- Calculate the expiry time
          let expiryTime : Time := maxStart + lifetimeSecond
          match r.Now s1 with
          | (now, s2) =>
            if now > expiryTime then
              match r.Delete (ObjectKeyFromObject pod) s2 with
              | (some err, s3) =>
                ⟨some err, [Call.get req, Call.delete (ObjectKeyFromObject pod)], s3⟩
              | (none, s3) =>
                ⟨none, [Call.get req, Call.delete (ObjectKeyFromObject pod)], s3⟩
            else ⟨none, [Call.get req], s2⟩

/-! ## The periodic sweep -/

/-- The context handed to the sweeper: `context.Background()`, which is never
cancelled, or a context that its owner can cancel. -/
inductive Context where
  | Background
  | WithCancel
  deriving DecidableEq, Repr

/-- What can happen while the sweeper waits in its `select`: the ticker fires, or
the owner of the process fires its cancellation signal. -/
inductive Event where
  | tick
  | cancel
  deriving DecidableEq, Repr

/-- The result of the registration call: the context its background sweeper runs
under and the controller option it sets. -/
structure Registration where
  sweeperContext : Context
  MaxConcurrentReconciles : Nat
  deriving DecidableEq, Repr

/-- The method `SetupWithManager`: starts `recheckExpiredPods(context.Background())`
in a goroutine and registers the controller with `MaxConcurrentReconciles: 1`. -/
def SetupWithManager : Registration := ⟨Context.Background, 1⟩

/-- The loop `for _, pod := range podList.Items` of `recheckExpiredPods`: one
`Reconcile` per item; a returned error is logged and the loop goes on. -/
def reconcileItems {σ : Type} (r : Client σ) : List Pod → σ → List Call × σ
  | [], s => ([], s)
  | pod :: rest, s =>
    let o := Reconcile r (ObjectKeyFromObject pod) s
    let t := reconcileItems r rest o.state
    (o.calls ++ t.1, t.2)

/-- Where `recheckExpiredPods` stands after a run of events: `returned` is `true`
once it has returned (`nil`), `false` while it waits in its `select`. -/
structure Sweep (σ : Type) where
  returned : Bool
  calls : List Call
  state : σ

/-- The method `recheckExpiredPods`, run over the events that wake its `select`. -/
def recheckExpiredPods {σ : Type} (r : Client σ) (ctx : Context) :
    List Event → σ → Sweep σ
  | [], s => ⟨false, [], s⟩
  | Event.cancel :: events, s =>
    match ctx with
    -- case <-ctx.Done(): return nil
    | Context.WithCancel => ⟨true, [], s⟩
    -- the Done channel of context.Background() is nil: the case is never ready
    | Context.Background => recheckExpiredPods r ctx events s
  | Event.tick :: events, s =>
    match r.List s with
    | (Except.error _, s1) =>
      -- the error is logged; continue
      let t := recheckExpiredPods r ctx events s1
      ⟨t.returned, Call.list :: t.calls, t.state⟩
    | (Except.ok items, s1) =>
      let l := reconcileItems r items s1
      let t := recheckExpiredPods r ctx events l.2
      ⟨t.returned, Call.list :: (l.1 ++ t.calls), t.state⟩

/-! ## Test harness: a store, repeated invocation, and the spec's notion of expiry -/

/-- An in-memory cluster: the pods the store holds and the reading of the clock. -/
structure Cluster where
  pods : List Pod
  clock : Time
  deriving DecidableEq, Repr

/-- A store over an in-memory cluster (the interface of the object store: get,
list, delete). `Get` and `List` read the held pods, a successful `Delete` removes
the object, a `Delete` of an absent object answers NotFound, the clock stands
still. `fault key` lets the store answer a delete of `key` with an error instead
(the object vanished after it was read, or the request failed). -/
def fakeClient (fault : NamespacedName → Option APIError) : Client Cluster :=
  ⟨fun key s =>
      match s.pods.find? (fun p => decide (ObjectKeyFromObject p = key)) with
      | some p => (Except.ok p, s)
      | none => (Except.error APIError.notFound, s),
   fun key s =>
      match fault key with
      | some e => (some e, s)
      | none =>
        if s.pods.any (fun p => decide (ObjectKeyFromObject p = key)) then
          (none, ⟨s.pods.filter (fun p => !decide (ObjectKeyFromObject p = key)), s.clock⟩)
        else (some APIError.notFound, s),
   fun s => (s.clock, s),
   fun s => (Except.ok s.pods, s)⟩

/-- A store that never injects a fault. -/
def noFault : NamespacedName → Option APIError := fun _ => none

/-- The store `r` with a list call that always fails with `e`. -/
def failingList {σ : Type} (r : Client σ) (e : APIError) : Client σ :=
  ⟨r.Get, r.Delete, r.Now, fun s => (Except.error e, s)⟩

/-- A pod `default/name` without labels, with running containers started at the
given instants. -/
def unlabelled (name : String) (starts : List Time) : Pod :=
  ⟨"default", name, [], ⟨starts.map (fun t => ⟨⟨some ⟨t⟩⟩⟩)⟩⟩

/-- Invoking `Reconcile` on one identity `n` times in succession: the errors
returned in order, all the store calls made, the environment left. -/
def reconcileTimes {σ : Type} (r : Client σ) (req : NamespacedName) :
    Nat → σ → List (Option APIError) × List Call × σ
  | 0, s => ([], [], s)
  | n + 1, s =>
    let o := Reconcile r req s
    let t := reconcileTimes r req n o.state
    (o.err :: t.1, o.calls ++ t.2.1, t.2.2)

/-- The start timestamps of the statuses whose running sub-state is present. -/
def runningStarts (statuses : List ContainerStatus) : List Time :=
  statuses.filterMap (fun st => st.State.Running.map (fun run => run.StartedAt))

/-- Spec, data model and step 3: the latest start among the running containers,
undefined when no container is running. -/
def latestStart (statuses : List ContainerStatus) : Option Time :=
  match runningStarts statuses with
  | [] => none
  | t :: ts => some (ts.foldl max t)

/-- Spec, expiry: the pod has a lifetime label that parses, a running container,
and `now` is later than the latest container start plus the lifetime. -/
def isExpired (now : Time) (pod : Pod) : Bool :=
  match pod.Labels.lookup lifetimeLabel with
  | none => false
  | some lifetimeStr =>
    match ParseDuration (lifetimeStr ++ "s"), latestStart pod.Status.ContainerStatuses with
    | some lifetime, some started => decide (now > started + lifetime)
    | _, _ => false

/-- Spec, label contract: a base-10 non-negative integer string. -/
def isDecimalString (v : String) : Bool := !v.data.isEmpty && v.data.all isDigit

/-- A pod `default/name` with one lifetime label value and running containers
started at the given instants. -/
def podWith (name lifetime : String) (starts : List Time) : Pod :=
  ⟨"default", name, [(lifetimeLabel, lifetime)],
    ⟨starts.map (fun t => ⟨⟨some ⟨t⟩⟩⟩)⟩⟩

/-- The identity `default/name`. -/
def keyOf (name : String) : NamespacedName := ⟨"default", name⟩

/-! ## Basic facts about `Reconcile` -/

theorem Reconcile_get_error {σ : Type} (r : Client σ) (req : NamespacedName) (s s1 : σ)
    (e : APIError) (hget : r.Get req s = (Except.error e, s1)) :
    Reconcile r req s = ⟨IgnoreNotFound (some e), [Call.get req], s1⟩ := by
  simp only [Reconcile, hget]

theorem Reconcile_no_label {σ : Type} (r : Client σ) (req : NamespacedName) (s s1 : σ)
    (pod : Pod) (hget : r.Get req s = (Except.ok pod, s1))
    (hlabel : pod.Labels.lookup lifetimeLabel = none) :
    Reconcile r req s = ⟨none, [Call.get req], s1⟩ := by
  simp only [Reconcile, hget, hlabel]

theorem Reconcile_bad_label {σ : Type} (r : Client σ) (req : NamespacedName) (s s1 : σ)
    (pod : Pod) (v : String) (hget : r.Get req s = (Except.ok pod, s1))
    (hlabel : pod.Labels.lookup lifetimeLabel = some v)
    (hparse : ParseDuration (v ++ "s") = none) :
    Reconcile r req s = ⟨none, [Call.get req], s1⟩ := by
  simp only [Reconcile, hget, hlabel, hparse]

theorem Reconcile_not_running {σ : Type} (r : Client σ) (req : NamespacedName) (s s1 : σ)
    (pod : Pod) (hget : r.Get req s = (Except.ok pod, s1))
    (hrun : maxStartTime pod.Status.ContainerStatuses = none) :
    Reconcile r req s = ⟨none, [Call.get req], s1⟩ := by
  cases hl : pod.Labels.lookup lifetimeLabel with
  | none => exact Reconcile_no_label r req s s1 pod hget hl
  | some v =>
    cases hp : ParseDuration (v ++ "s") with
    | none => exact Reconcile_bad_label r req s s1 pod v hget hl hp
    | some d => simp only [Reconcile, hget, hl, hp, hrun]

theorem Reconcile_unexpired {σ : Type} (r : Client σ) (req : NamespacedName) (s s1 s2 : σ)
    (pod : Pod) (v : String) (d : Duration) (m now : Time)
    (hget : r.Get req s = (Except.ok pod, s1))
    (hlabel : pod.Labels.lookup lifetimeLabel = some v)
    (hparse : ParseDuration (v ++ "s") = some d)
    (hrun : maxStartTime pod.Status.ContainerStatuses = some m)
    (hnow : r.Now s1 = (now, s2)) (hle : now ≤ m + d) :
    Reconcile r req s = ⟨none, [Call.get req], s2⟩ := by
  have h : ¬ now > m + d := not_lt.mpr hle
  simp only [Reconcile, hget, hlabel, hparse, hrun, hnow, h, if_false]

theorem Reconcile_expired {σ : Type} (r : Client σ) (req : NamespacedName) (s s1 s2 s3 : σ)
    (pod : Pod) (v : String) (d : Duration) (m now : Time) (e : Option APIError)
    (hget : r.Get req s = (Except.ok pod, s1))
    (hlabel : pod.Labels.lookup lifetimeLabel = some v)
    (hparse : ParseDuration (v ++ "s") = some d)
    (hrun : maxStartTime pod.Status.ContainerStatuses = some m)
    (hnow : r.Now s1 = (now, s2)) (hgt : now > m + d)
    (hdel : r.Delete (ObjectKeyFromObject pod) s2 = (e, s3)) :
    Reconcile r req s =
      ⟨e, [Call.get req, Call.delete (ObjectKeyFromObject pod)], s3⟩ := by
  simp only [Reconcile, hget, hlabel, hparse, hrun, hnow, hgt, if_true, hdel]
  cases e <;> rfl

/-! ## The start time that governs expiry -/

theorem foldl_max_ge (ts : List Time) (a : Time) : a ≤ ts.foldl max a := by
  induction ts generalizing a with
  | nil => exact le_refl a
  | cons t ts ih => exact le_trans (le_max_left a t) (ih (max a t))

theorem foldl_max_upper (ts : List Time) (a : Time) :
    ∀ t ∈ ts, t ≤ ts.foldl max a := by
  induction ts generalizing a with
  | nil => intro t ht; cases ht
  | cons u ts ih =>
    intro t ht
    rcases List.mem_cons.mp ht with h | h
    · subst h
      exact le_trans (le_max_right a t) (foldl_max_ge ts (max a t))
    · exact ih (max a u) t h

theorem foldl_max_mem (ts : List Time) (a : Time) : ts.foldl max a ∈ a :: ts := by
  induction ts generalizing a with
  | nil => simp
  | cons u ts ih =>
    have h := ih (max a u)
    rcases List.mem_cons.mp h with h1 | h1
    · show List.foldl max (max a u) ts ∈ a :: u :: ts
      rw [h1]
      rcases max_choice a u with h2 | h2 <;> simp [h2]
    · exact List.mem_cons_of_mem a (List.mem_cons_of_mem u h1)

/-- The loop of `Reconcile`, started from a non-nil pointer. -/
theorem maxStartTime_loop_some (statuses : List ContainerStatus) (a : Time) :
    statuses.foldl
      (fun (maxStart : Option Time) (status : ContainerStatus) =>
        match status.State.Running with
        | some running =>
          match maxStart with
          | none => some running.StartedAt
          | some m => if running.StartedAt > m then some running.StartedAt else some m
        | none => maxStart)
      (some a) = some ((runningStarts statuses).foldl max a) := by
  induction statuses generalizing a with
  | nil => rfl
  | cons st rest ih =>
    rcases st with ⟨⟨run⟩⟩
    cases run with
    | none => simpa [runningStarts] using ih a
    | some run =>
      by_cases h : run.StartedAt > a
      · have hm : max a run.StartedAt = run.StartedAt := max_eq_right (le_of_lt h)
        simpa [runningStarts, h, hm] using ih run.StartedAt
      · have hm : max a run.StartedAt = a := max_eq_left (not_lt.mp h)
        simpa [runningStarts, h, hm] using ih a

/-- The loop of `Reconcile` computes the spec's latest start. -/
theorem maxStartTime_eq_latestStart (statuses : List ContainerStatus) :
    maxStartTime statuses = latestStart statuses := by
  induction statuses with
  | nil => rfl
  | cons st rest ih =>
    rcases st with ⟨⟨run⟩⟩
    cases run with
    | none =>
      have h : runningStarts (⟨⟨none⟩⟩ :: rest) = runningStarts rest := by
        simp [runningStarts]
      simpa [maxStartTime, latestStart, h] using ih
    | some run =>
      have h : runningStarts (⟨⟨some run⟩⟩ :: rest) = run.StartedAt :: runningStarts rest := by
        simp [runningStarts]
      simp only [maxStartTime, latestStart, h, List.foldl]
      exact maxStartTime_loop_some rest run.StartedAt

theorem latestStart_eq_none (statuses : List ContainerStatus) :
    latestStart statuses = none ↔ runningStarts statuses = [] := by
  unfold latestStart
  cases runningStarts statuses <;> simp

theorem runningStarts_eq_nil (statuses : List ContainerStatus) :
    runningStarts statuses = [] ↔ ∀ st ∈ statuses, st.State.Running = none := by
  induction statuses with
  | nil => simp [runningStarts]
  | cons st rest ih =>
    rcases st with ⟨⟨run⟩⟩
    cases run with
    | none =>
      have h : runningStarts (⟨⟨none⟩⟩ :: rest) = runningStarts rest := by
        simp [runningStarts]
      simp [h, ih]
    | some run => simp [runningStarts]

/-- The latest start is the greatest element of the running start times. -/
theorem latestStart_spec (statuses : List ContainerStatus) (m : Time) :
    latestStart statuses = some m ↔
      m ∈ runningStarts statuses ∧ ∀ t ∈ runningStarts statuses, t ≤ m := by
  unfold latestStart
  cases h : runningStarts statuses with
  | nil => simp
  | cons a ts =>
    simp only [Option.some.injEq]
    constructor
    · intro hm
      subst hm
      refine ⟨foldl_max_mem ts a, ?_⟩
      intro t ht
      rcases List.mem_cons.mp ht with h1 | h1
      · subst h1; exact foldl_max_ge ts t
      · exact foldl_max_upper ts a t h1
    · rintro ⟨hmem, hub⟩
      exact le_antisymm (hub _ (foldl_max_mem ts a))
        (by
          rcases List.mem_cons.mp hmem with h1 | h1
          · subst h1; exact foldl_max_ge ts m
          · exact foldl_max_upper ts a m h1)

/-! ## The parser's loop terminates within its fuel -/

theorem leadingInt_length (s : List Char) :
    ∀ (x v : Nat) (rest : List Char), leadingInt s x = some (v, rest) →
      rest.length ≤ s.length := by
  induction s with
  | nil =>
    intro x v rest h
    simp only [leadingInt, Option.some.injEq, Prod.mk.injEq] at h
    rw [← h.2]
  | cons c cs ih =>
    intro x v rest h
    unfold leadingInt at h
    split at h
    · simp only [Option.some.injEq, Prod.mk.injEq] at h
      rw [← h.2]
    · split at h
      · cases h
      · dsimp only at h
        split at h
        · cases h
        · exact Nat.le_succ_of_le (ih _ v rest h)

theorem leadingFraction_length (s : List Char) :
    ∀ (x : Nat) (scale : F64) (overflow : Bool),
      (leadingFraction s x scale overflow).2.2.length ≤ s.length := by
  induction s with
  | nil => intro x scale overflow; simp [leadingFraction]
  | cons c cs ih =>
    intro x scale overflow
    unfold leadingFraction
    split
    · exact le_refl _
    · split
      · exact Nat.le_succ_of_le (ih _ _ _)
      · split
        · exact Nat.le_succ_of_le (ih _ _ _)
        · dsimp only
          split
          · exact Nat.le_succ_of_le (ih _ _ _)
          · exact Nat.le_succ_of_le (ih _ _ _)

theorem leadingPeriod_length (s : List Char) : (leadingPeriod s).2.2.1.length ≤ s.length := by
  unfold leadingPeriod
  split
  · rename_i s2
    exact Nat.le_succ_of_le (leadingFraction_length s2 0 (F64.ofNat 1) false)
  · exact le_refl _

theorem takeWhile_dropWhile_length (p : Char → Bool) (l : List Char) :
    (l.takeWhile p).length + (l.dropWhile p).length = l.length := by
  rw [← List.length_append, List.takeWhile_append_dropWhile]

/-- A round of the loop consumes at least one character. -/
theorem parseGroup_length (c : Char) (cs : List Char) (v : Nat) (rest : List Char)
    (h : parseGroup c cs = some (v, rest)) : rest.length ≤ cs.length := by
  unfold parseGroup at h
  split at h
  · cases h
  · split at h
    · cases h
    · rename_i v0 s1 hlead
      have h1 : s1.length ≤ cs.length + 1 := leadingInt_length _ _ _ _ hlead
      have h2 := leadingPeriod_length s1
      have h3 := takeWhile_dropWhile_length (fun c => !endsUnit c) (leadingPeriod s1).2.2.1
      dsimp only at h
      repeat' split at h
      all_goals first
        | (cases h; done)
        | (cases h; omega)

/-- The loop's result does not depend on the fuel once there is a round for every
character: running out of fuel is never what makes the parse fail. -/
theorem parseGroups_fuel (n : Nat) :
    ∀ (m : Nat) (s : List Char) (d : Nat), s.length ≤ n → s.length ≤ m →
      parseGroups n s d = parseGroups m s d := by
  induction n with
  | zero =>
    intro m s d hn _
    have hs : s = [] := List.length_eq_zero.mp (Nat.le_zero.mp hn)
    subst hs
    cases m <;> rfl
  | succ n ih =>
    intro m s d hn hm
    cases s with
    | nil => cases m <;> rfl
    | cons c cs =>
      cases m with
      | zero => simp at hm
      | succ m =>
        simp only [List.length_cons, Nat.add_le_add_iff_right] at hn hm
        simp only [parseGroups]
        cases hg : parseGroup c cs with
        | none => rfl
        | some res =>
          obtain ⟨v, rest⟩ := res
          have hlen := parseGroup_length c cs v rest hg
          simp only
          rw [ih m rest _ (le_trans hlen hn) (le_trans hlen hm)]

/-! ## Decimal labels -/

theorem isExpired_iff (now : Time) (pod : Pod) :
    isExpired now pod = true ↔
      ∃ v d m, pod.Labels.lookup lifetimeLabel = some v ∧
        ParseDuration (v ++ "s") = some d ∧
        maxStartTime pod.Status.ContainerStatuses = some m ∧ now > m + d := by
  unfold isExpired
  rw [← maxStartTime_eq_latestStart]
  cases hl : pod.Labels.lookup lifetimeLabel with
  | none => simp
  | some v =>
    cases hp : ParseDuration (v ++ "s") with
    | none => simp [hp]
    | some d =>
      cases hm : maxStartTime pod.Status.ContainerStatuses with
      | none => simp [hp]
      | some m => simp [hp]

/-- An expired pod: `Reconcile` reads it, reads the clock, issues one delete for it
and returns whatever the delete returned. -/
theorem Reconcile_of_isExpired {σ : Type} (r : Client σ) (req : NamespacedName)
    (s s1 s2 : σ) (pod : Pod) (now : Time)
    (hget : r.Get req s = (Except.ok pod, s1)) (hnow : r.Now s1 = (now, s2))
    (hexp : isExpired now pod = true) :
    Reconcile r req s =
      ⟨(r.Delete (ObjectKeyFromObject pod) s2).1,
        [Call.get req, Call.delete (ObjectKeyFromObject pod)],
        (r.Delete (ObjectKeyFromObject pod) s2).2⟩ := by
  obtain ⟨v, d, m, hl, hp, hm, hgt⟩ := (isExpired_iff now pod).mp hexp
  exact Reconcile_expired r req s s1 s2 _ pod v d m now _ hget hl hp hm hnow hgt rfl

/-- A pod that is not expired: `Reconcile` only reads and returns success. -/
theorem Reconcile_of_not_isExpired {σ : Type} (r : Client σ) (req : NamespacedName)
    (s s1 s2 : σ) (pod : Pod) (now : Time)
    (hget : r.Get req s = (Except.ok pod, s1)) (hnow : r.Now s1 = (now, s2))
    (hexp : isExpired now pod = false) :
    (Reconcile r req s).err = none ∧ (Reconcile r req s).calls = [Call.get req] ∧
      ((Reconcile r req s).state = s1 ∨ (Reconcile r req s).state = s2) := by
  cases hl : pod.Labels.lookup lifetimeLabel with
  | none =>
    rw [Reconcile_no_label r req s s1 pod hget hl]
    exact ⟨rfl, rfl, Or.inl rfl⟩
  | some v =>
    cases hp : ParseDuration (v ++ "s") with
    | none =>
      rw [Reconcile_bad_label r req s s1 pod v hget hl hp]
      exact ⟨rfl, rfl, Or.inl rfl⟩
    | some d =>
      cases hm : maxStartTime pod.Status.ContainerStatuses with
      | none =>
        rw [Reconcile_not_running r req s s1 pod hget hm]
        exact ⟨rfl, rfl, Or.inl rfl⟩
      | some m =>
        have hle : now ≤ m + d := by
          by_contra hcon
          have : isExpired now pod = true :=
            (isExpired_iff now pod).mpr ⟨v, d, m, hl, hp, hm, not_le.mp hcon⟩
          rw [hexp] at this
          exact Bool.noConfusion this
        rw [Reconcile_unexpired r req s s1 s2 pod v d m now hget hl hp hm hnow hle]
        exact ⟨rfl, rfl, Or.inr rfl⟩

/-- Every list with a running container has a latest start, and the loop of
`Reconcile` finds it. -/
theorem maxStartTime_exists (statuses : List ContainerStatus)
    (hrun : ∃ st ∈ statuses, st.State.Running ≠ none) :
    ∃ m, maxStartTime statuses = some m ∧ m ∈ runningStarts statuses ∧
      ∀ t ∈ runningStarts statuses, t ≤ m := by
  cases h : maxStartTime statuses with
  | none =>
    rw [maxStartTime_eq_latestStart, latestStart_eq_none, runningStarts_eq_nil] at h
    obtain ⟨st, hst, hne⟩ := hrun
    exact absurd (h st hst) hne
  | some m =>
    rw [maxStartTime_eq_latestStart] at h
    exact ⟨m, rfl, (latestStart_spec statuses m).mp h⟩

/-! ## The sweeper and its context -/

/-- Under `context.Background()` the sweeper never returns, whatever happens. -/
theorem recheck_background_never_returns {σ : Type} (r : Client σ) (events : List Event) :
    ∀ s : σ, (recheckExpiredPods r Context.Background events s).returned = false := by
  induction events with
  | nil => intro s; rfl
  | cons ev events ih =>
    intro s
    cases ev with
    | cancel => exact ih s
    | tick =>
      cases h : r.List s with
      | mk res s1 =>
        cases res with
        | error e => simpa [recheckExpiredPods, h] using ih s1
        | ok items => simpa [recheckExpiredPods, h] using ih _

/-- Under a cancellable context the loop itself honours the cancellation: it
returns at the `select`, making no further call. -/
theorem recheck_cancel_returns {σ : Type} (r : Client σ) (events : List Event) (s : σ) :
    recheckExpiredPods r Context.WithCancel (Event.cancel :: events) s = ⟨true, [], s⟩ := rfl

/-! ## One sweep over the in-memory store -/

theorem find_by_key (pods : List Pod) (p : Pod) (hp : p ∈ pods)
    (hnd : (pods.map ObjectKeyFromObject).Nodup) :
    pods.find? (fun x => decide (ObjectKeyFromObject x = ObjectKeyFromObject p)) = some p := by
  induction pods with
  | nil => cases hp
  | cons a l ih =>
    rw [List.map_cons, List.nodup_cons] at hnd
    by_cases ha : a = p
    · subst ha
      simp [List.find?]
    · have hpl : p ∈ l := by
        rcases List.mem_cons.mp hp with h | h
        · exact absurd h.symm ha
        · exact h
      have hne : ObjectKeyFromObject a ≠ ObjectKeyFromObject p := by
        intro heq
        exact hnd.1 (heq ▸ List.mem_map_of_mem ObjectKeyFromObject hpl)
      simp only [List.find?, hne, decide_False]
      exact ih hpl hnd.2

/-- On the in-memory store, reconciling a held pod issues a delete exactly when the
pod is expired at the clock reading; the clock is left alone and the store loses at
most that pod. -/
theorem fake_Reconcile (fault : NamespacedName → Option APIError) (c : Cluster) (p : Pod)
    (hp : p ∈ c.pods) (hnd : (c.pods.map ObjectKeyFromObject).Nodup) :
    (Reconcile (fakeClient fault) (ObjectKeyFromObject p) c).calls
      = (if isExpired c.clock p = true
          then [Call.get (ObjectKeyFromObject p), Call.delete (ObjectKeyFromObject p)]
          else [Call.get (ObjectKeyFromObject p)]) ∧
    (Reconcile (fakeClient fault) (ObjectKeyFromObject p) c).state.clock = c.clock ∧
    ((Reconcile (fakeClient fault) (ObjectKeyFromObject p) c).state.pods = c.pods ∨
     (Reconcile (fakeClient fault) (ObjectKeyFromObject p) c).state.pods
      = c.pods.filter (fun x => !decide (ObjectKeyFromObject x = ObjectKeyFromObject p))) := by
  have hget : (fakeClient fault).Get (ObjectKeyFromObject p) c = (Except.ok p, c) := by
    simp only [fakeClient, find_by_key c.pods p hp hnd]
  have hnow : (fakeClient fault).Now c = (c.clock, c) := rfl
  cases hexp : isExpired c.clock p with
  | true =>
    rw [Reconcile_of_isExpired (fakeClient fault) _ c c c p c.clock hget hnow hexp]
    refine ⟨by simp, ?_⟩
    simp only [fakeClient]
    cases fault (ObjectKeyFromObject p) with
    | some e => exact ⟨rfl, Or.inl rfl⟩
    | none =>
      by_cases hany : c.pods.any (fun x => decide (ObjectKeyFromObject x = ObjectKeyFromObject p)) = true
      · simp [hany]
      · simp [hany]
  | false =>
    obtain ⟨_, h2, h3⟩ :=
      Reconcile_of_not_isExpired (fakeClient fault) _ c c c p c.clock hget hnow hexp
    refine ⟨by simp [h2], ?_, ?_⟩
    · rcases h3 with h | h <;> rw [h]
    · rcases h3 with h | h <;> exact Or.inl (by rw [h])

/-- The loop over the listed pods, on the in-memory store: the delete calls are
those for the expired items, in the order of the list. -/
theorem fake_reconcileItems (fault : NamespacedName → Option APIError) (items : List Pod) :
    ∀ c : Cluster, (∀ p ∈ items, p ∈ c.pods) →
      (items.map ObjectKeyFromObject).Nodup → (c.pods.map ObjectKeyFromObject).Nodup →
      (reconcileItems (fakeClient fault) items c).1.filter Call.isDelete
        = (items.filter (fun p => isExpired c.clock p)).map
            (fun p => Call.delete (ObjectKeyFromObject p)) := by
  induction items with
  | nil => intro c _ _ _; rfl
  | cons p rest ih =>
    intro c hsub hnd hcnd
    have hp : p ∈ c.pods := hsub p (List.mem_cons_self p rest)
    obtain ⟨hcalls, hclock, hpods⟩ := fake_Reconcile fault c p hp hcnd
    rw [List.map_cons, List.nodup_cons] at hnd
    have hsub' : ∀ q ∈ rest,
        q ∈ (Reconcile (fakeClient fault) (ObjectKeyFromObject p) c).state.pods := by
      intro q hq
      have hqc : q ∈ c.pods := hsub q (List.mem_cons_of_mem p hq)
      rcases hpods with h | h
      · rw [h]; exact hqc
      · rw [h]
        refine List.mem_filter.mpr ⟨hqc, ?_⟩
        have hne : ObjectKeyFromObject q ≠ ObjectKeyFromObject p := by
          intro heq
          exact hnd.1 (heq ▸ List.mem_map_of_mem ObjectKeyFromObject hq)
        simp [hne]
    have hcnd' : ((Reconcile (fakeClient fault) (ObjectKeyFromObject p) c).state.pods.map
        ObjectKeyFromObject).Nodup := by
      rcases hpods with h | h
      · rw [h]; exact hcnd
      · rw [h]
        exact hcnd.sublist (List.Sublist.map _ (List.filter_sublist _))
    have hrest := ih _ hsub' hnd.2 hcnd'
    rw [hclock] at hrest
    simp only [reconcileItems, List.filter_append, hrest, hcalls]
    cases hexp : isExpired c.clock p with
    | true => simp [List.filter, Call.isDelete, hexp]
    | false => simp [List.filter, Call.isDelete, hexp]

theorem count_delete_absent (pods : List Pod) (f : Pod → Bool) (k : NamespacedName)
    (hk : k ∉ pods.map ObjectKeyFromObject) :
    ((pods.filter f).map (fun p => Call.delete (ObjectKeyFromObject p))).count (Call.delete k)
      = 0 := by
  apply List.count_eq_zero_of_not_mem
  intro hmem
  obtain ⟨q, hq, heq⟩ := List.mem_map.mp hmem
  have hkq : ObjectKeyFromObject q = k := by
    injection heq
  exact hk (hkq ▸ List.mem_map_of_mem ObjectKeyFromObject (List.mem_filter.mp hq).1)

theorem count_delete_filter (pods : List Pod) (f : Pod → Bool)
    (hnd : (pods.map ObjectKeyFromObject).Nodup) :
    ∀ p ∈ pods,
      ((pods.filter f).map (fun p => Call.delete (ObjectKeyFromObject p))).count
          (Call.delete (ObjectKeyFromObject p))
        = if f p = true then 1 else 0 := by
  induction pods with
  | nil => intro p hp; cases hp
  | cons a l ih =>
    intro p hp
    rw [List.map_cons, List.nodup_cons] at hnd
    by_cases hpa : p = a
    · subst hpa
      have h0 := count_delete_absent l f (ObjectKeyFromObject p) hnd.1
      cases hf : f p with
      | true => simp [List.filter, hf, h0]
      | false => simp [List.filter, hf, h0]
    · have hpl : p ∈ l := by
        rcases List.mem_cons.mp hp with h | h
        · exact absurd h hpa
        · exact h
      have hne : ObjectKeyFromObject a ≠ ObjectKeyFromObject p := by
        intro heq
        exact hnd.1 (heq ▸ List.mem_map_of_mem ObjectKeyFromObject hpl)
      have hne' : (Call.delete (ObjectKeyFromObject a) == Call.delete (ObjectKeyFromObject p))
          = false := by
        simp [hne]
      cases hf : f a with
      | true =>
        simp only [List.filter, hf, List.map_cons, List.count_cons, hne']
        simpa using ih hnd.2 p hpl
      | false =>
        simp only [List.filter, hf]
        exact ih hnd.2 p hpl

/-- One tick on the in-memory store: the calls are the list call followed by those
of the loop over the held pods. -/
theorem fake_tick_calls (fault : NamespacedName → Option APIError) (ctx : Context)
    (c : Cluster) :
    (recheckExpiredPods (fakeClient fault) ctx [Event.tick] c).calls
      = Call.list :: (reconcileItems (fakeClient fault) c.pods c).1 := by
  have hlist : (fakeClient fault).List c = (Except.ok c.pods, c) := rfl
  simp [recheckExpiredPods, hlist]

theorem fake_tick_deletes (fault : NamespacedName → Option APIError) (ctx : Context)
    (c : Cluster) (hnd : (c.pods.map ObjectKeyFromObject).Nodup) :
    (recheckExpiredPods (fakeClient fault) ctx [Event.tick] c).calls.filter Call.isDelete
      = (c.pods.filter (fun p => isExpired c.clock p)).map
          (fun p => Call.delete (ObjectKeyFromObject p)) := by
  rw [fake_tick_calls]
  have h := fake_reconcileItems fault c.pods c (fun _ hp => hp) hnd hnd
  simpa [List.filter, Call.isDelete] using h

/-! ## The loop over the listed pods, on any store -/

theorem Reconcile_calls {σ : Type} (r : Client σ) (req : NamespacedName) (s : σ) :
    (Reconcile r req s).calls = [Call.get req] ∨
      ∃ k, (Reconcile r req s).calls = [Call.get req, Call.delete k] := by
  cases hget : r.Get req s with
  | mk res s1 =>
    cases res with
    | error e =>
      rw [Reconcile_get_error r req s s1 e hget]
      exact Or.inl rfl
    | ok pod =>
      cases hexp : isExpired (r.Now s1).1 pod with
      | true =>
        rw [Reconcile_of_isExpired r req s s1 (r.Now s1).2 pod (r.Now s1).1 hget rfl hexp]
        exact Or.inr ⟨_, rfl⟩
      | false =>
        exact Or.inl
          (Reconcile_of_not_isExpired r req s s1 (r.Now s1).2 pod (r.Now s1).1 hget rfl hexp).2.1

theorem reconcileItems_append {σ : Type} (r : Client σ) (pre post : List Pod) :
    ∀ s : σ, reconcileItems r (pre ++ post) s
      = ((reconcileItems r pre s).1 ++ (reconcileItems r post (reconcileItems r pre s).2).1,
          (reconcileItems r post (reconcileItems r pre s).2).2) := by
  induction pre with
  | nil => intro s; simp [reconcileItems]
  | cons p pre ih =>
    intro s
    simp only [List.cons_append, reconcileItems, List.append_eq, ih, List.append_assoc]

/-- Every listed pod gets its invocation of `Reconcile`, whatever the invocations
before it returned: the reads of the loop are those of the items, in order. -/
theorem reconcileItems_gets {σ : Type} (r : Client σ) (items : List Pod) :
    ∀ s : σ, (reconcileItems r items s).1.filter Call.isGet
      = items.map (fun p => Call.get (ObjectKeyFromObject p)) := by
  induction items with
  | nil => intro s; rfl
  | cons p rest ih =>
    intro s
    simp only [reconcileItems, List.filter_append, ih, List.map_cons]
    rcases Reconcile_calls r (ObjectKeyFromObject p) s with h | ⟨k, h⟩
    · rw [h]; simp [List.filter, Call.isGet]
    · rw [h]; simp [List.filter, Call.isGet]

theorem recheck_returned_iff {σ : Type} (r : Client σ) (ctx : Context) (events : List Event) :
    ∀ s : σ, (recheckExpiredPods r ctx events s).returned = true ↔
      ctx = Context.WithCancel ∧ Event.cancel ∈ events := by
  induction events with
  | nil => intro s; simp [recheckExpiredPods]
  | cons ev events ih =>
    intro s
    cases ev with
    | cancel =>
      cases ctx with
      | WithCancel => simp [recheckExpiredPods]
      | Background =>
        have h := recheck_background_never_returns r (Event.cancel :: events) s
        simp [h]
    | tick =>
      cases h : r.List s with
      | mk res s1 =>
        cases res with
        | error e => simpa [recheckExpiredPods, h] using ih s1
        | ok items => simpa [recheckExpiredPods, h] using ih _

/-! ## The claims about `Reconcile` -/

/-- C1 (the code departs from the claim): the pod `default/p` carries the label
`"10"`, its one container has been running since instant `0`, the clock reads 15
seconds, so the pod is expired; the store answers the delete with NotFound because
the object is already gone. `Reconcile` issues the delete and returns that NotFound
error to its caller instead of success. -/
theorem C1_delete_notFound_is_returned :
    isExpired 15000000000 (podWith "p" "10" [0]) = true ∧
    (Reconcile (fakeClient (fun _ => some APIError.notFound)) (keyOf "p")
        ⟨[podWith "p" "10" [0]], 15000000000⟩).calls
      = [Call.get (keyOf "p"), Call.delete (keyOf "p")] ∧
    (Reconcile (fakeClient (fun _ => some APIError.notFound)) (keyOf "p")
        ⟨[podWith "p" "10" [0]], 15000000000⟩).err
      = some APIError.notFound := by
  decide

/-- C2 (the code departs from the claim): the label value `"5m"` is not a base-10
non-negative integer string. The code parses `"5m" ++ "s"`, which is the duration
5 milliseconds, so the pod `default/p`, whose container started at instant `0`, is
deleted when the clock reads one second, instead of being left alone as a pod with
an invalid lifetime. -/
theorem C2_unit_suffix_label_is_deleted :
    isDecimalString "5m" = false ∧
    ParseDuration ("5m" ++ "s") = some 5000000 ∧
    (Reconcile (fakeClient noFault) (keyOf "p")
        ⟨[podWith "p" "5m" [0]], 1000000000⟩).calls
      = [Call.get (keyOf "p"), Call.delete (keyOf "p")] := by
  decide

/-- A label value that is empty, or whose first character is none of a digit, a
period and a sign, is rejected by the parser whatever follows. -/
theorem ParseDuration_rejects_head (v : String)
    (h : v.data = [] ∨ ∃ c cs, v.data = c :: cs ∧ c ≠ '-' ∧ c ≠ '+' ∧ c ≠ '.' ∧
      isDigit c = false) :
    ParseDuration (v ++ "s") = none := by
  unfold ParseDuration
  rw [String.data_append]
  rcases h with h | ⟨c, cs, h, h1, h2, h3, h4⟩
  · rw [h]
    decide
  · rw [h]
    have h0 : c ≠ '0' := by
      intro hc
      subst hc
      exact absurd h4 (by decide)
    simp [parseDurationChars, parseGroups, parseGroup, h1, h2, h3, h4, h0]

/-- A pod whose label value is empty or starts with a character that is none of a
digit, a period and a sign is never deleted: `Reconcile` only reads and returns
success. -/
theorem Reconcile_nonnumeric_label {σ : Type} (r : Client σ) (req : NamespacedName)
    (s s1 : σ) (pod : Pod) (v : String)
    (hget : r.Get req s = (Except.ok pod, s1))
    (hlabel : pod.Labels.lookup lifetimeLabel = some v)
    (h : v.data = [] ∨ ∃ c cs, v.data = c :: cs ∧ c ≠ '-' ∧ c ≠ '+' ∧ c ≠ '.' ∧
      isDigit c = false) :
    Reconcile r req s = ⟨none, [Call.get req], s1⟩ :=
  Reconcile_bad_label r req s s1 pod v hget hlabel (ParseDuration_rejects_head v h)

/-- C4: for a pod with at least one running container, the start time `Reconcile`
uses is the greatest `StartedAt` among exactly the statuses whose running sub-state
is present (statuses without it do not count, the order of the list does not
matter); hence a pod whose running containers have `T2` as their latest start is
reconciled, for every label and every clock reading, with the same store calls and
the same returned error as a pod of the same identity and labels whose single
running container started at `T2`. -/
theorem C4_latest_running_start_governs {σ τ : Type} (r : Client σ) (q : Client τ)
    (req : NamespacedName) (s s1 : σ) (u u1 : τ) (pod single : Pod) (T2 now : Time)
    (hget : r.Get req s = (Except.ok pod, s1))
    (hget' : q.Get req u = (Except.ok single, u1))
    (hid : ObjectKeyFromObject pod = ObjectKeyFromObject single)
    (hlabels : pod.Labels = single.Labels)
    (hmem : T2 ∈ runningStarts pod.Status.ContainerStatuses)
    (hmax : ∀ t ∈ runningStarts pod.Status.ContainerStatuses, t ≤ T2)
    (hsingle : runningStarts single.Status.ContainerStatuses = [T2])
    (hnow : (r.Now s1).1 = now) (hnow' : (q.Now u1).1 = now)
    (hdel : (r.Delete (ObjectKeyFromObject pod) (r.Now s1).2).1
      = (q.Delete (ObjectKeyFromObject single) (q.Now u1).2).1) :
    maxStartTime pod.Status.ContainerStatuses = some T2 ∧
    (Reconcile r req s).calls = (Reconcile q req u).calls ∧
    (Reconcile r req s).err = (Reconcile q req u).err := by
  have hm : maxStartTime pod.Status.ContainerStatuses = some T2 := by
    rw [maxStartTime_eq_latestStart]
    exact (latestStart_spec _ T2).mpr ⟨hmem, hmax⟩
  have hm' : maxStartTime single.Status.ContainerStatuses = some T2 := by
    rw [maxStartTime_eq_latestStart]
    simp [latestStart, hsingle]
  refine ⟨hm, ?_⟩
  cases hl : pod.Labels.lookup lifetimeLabel with
  | none =>
    rw [Reconcile_no_label r req s s1 pod hget hl,
      Reconcile_no_label q req u u1 single hget' (hlabels ▸ hl)]
    exact ⟨rfl, rfl⟩
  | some v =>
    have hl' : single.Labels.lookup lifetimeLabel = some v := hlabels ▸ hl
    cases hp : ParseDuration (v ++ "s") with
    | none =>
      rw [Reconcile_bad_label r req s s1 pod v hget hl hp,
        Reconcile_bad_label q req u u1 single v hget' hl' hp]
      exact ⟨rfl, rfl⟩
    | some d =>
      by_cases hgt : now > T2 + d
      · rw [Reconcile_expired r req s s1 (r.Now s1).2
            (r.Delete (ObjectKeyFromObject pod) (r.Now s1).2).2 pod v d T2 now
            (r.Delete (ObjectKeyFromObject pod) (r.Now s1).2).1 hget hl hp hm
            (by rw [← hnow]) hgt rfl,
          Reconcile_expired q req u u1 (q.Now u1).2
            (q.Delete (ObjectKeyFromObject single) (q.Now u1).2).2 single v d T2 now
            (q.Delete (ObjectKeyFromObject single) (q.Now u1).2).1 hget' hl' hp hm'
            (by rw [← hnow']) hgt rfl]
        exact ⟨by rw [hid], hdel⟩
      · rw [Reconcile_unexpired r req s s1 (r.Now s1).2 pod v d T2 now hget hl hp hm
            (by rw [← hnow]) (not_lt.mp hgt),
          Reconcile_unexpired q req u u1 (q.Now u1).2 single v d T2 now hget' hl' hp hm'
            (by rw [← hnow']) (not_lt.mp hgt)]
        exact ⟨rfl, rfl⟩

/-- C4 at containers started at `T1 = 0 < T2 = 95` seconds, label `"10"`, clock at
100 seconds: the pod with both containers is treated as the pod with the one
started at `T2` (neither is deleted, though `T1 + 10 < 100`). -/
theorem C4_latest_running_start_witness :
    maxStartTime (podWith "p" "10" [0, 95000000000]).Status.ContainerStatuses
      = some 95000000000 ∧
    (Reconcile (fakeClient noFault) (keyOf "p")
        ⟨[podWith "p" "10" [0, 95000000000]], 100000000000⟩).calls
      = (Reconcile (fakeClient noFault) (keyOf "p")
        ⟨[podWith "p" "10" [95000000000]], 100000000000⟩).calls ∧
    (Reconcile (fakeClient noFault) (keyOf "p")
        ⟨[podWith "p" "10" [0, 95000000000]], 100000000000⟩).err
      = (Reconcile (fakeClient noFault) (keyOf "p")
        ⟨[podWith "p" "10" [95000000000]], 100000000000⟩).err :=
  C4_latest_running_start_governs (fakeClient noFault) (fakeClient noFault) (keyOf "p")
    ⟨[podWith "p" "10" [0, 95000000000]], 100000000000⟩
    ⟨[podWith "p" "10" [0, 95000000000]], 100000000000⟩
    ⟨[podWith "p" "10" [95000000000]], 100000000000⟩
    ⟨[podWith "p" "10" [95000000000]], 100000000000⟩
    (podWith "p" "10" [0, 95000000000]) (podWith "p" "10" [95000000000])
    95000000000 100000000000 rfl rfl (by decide) (by decide) (by decide) (by decide)
    (by decide) rfl rfl (by decide)

/-- C5: a pod that has no lifetime label (whatever its container statuses), and a
pod none of whose container statuses has a running sub-state (whatever its label,
an empty status list included), is left alone whatever the clock reads: `Reconcile`
makes no store call but the read (no delete) and returns success. -/
theorem C5_exempt_pod_not_deleted {σ : Type} (r : Client σ) (req : NamespacedName)
    (s s1 : σ) (pod : Pod)
    (hget : r.Get req s = (Except.ok pod, s1))
    (hexempt : pod.Labels.lookup lifetimeLabel = none ∨
      ∀ st ∈ pod.Status.ContainerStatuses, st.State.Running = none) :
    (Reconcile r req s).err = none ∧ (Reconcile r req s).calls = [Call.get req] := by
  rcases hexempt with h | h
  · rw [Reconcile_no_label r req s s1 pod hget h]
    exact ⟨rfl, rfl⟩
  · have hrun : maxStartTime pod.Status.ContainerStatuses = none := by
      rw [maxStartTime_eq_latestStart, latestStart_eq_none, runningStarts_eq_nil]
      exact h
    rw [Reconcile_not_running r req s s1 pod hget hrun]
    exact ⟨rfl, rfl⟩

/-- C5 at a pod without labels whose container started 100 seconds before the
clock reading, and at a pod labelled `"10"` with an empty status list and with one
status that is not running. -/
theorem C5_exempt_pod_witness :
    ((Reconcile (fakeClient noFault) (keyOf "p")
        ⟨[⟨"default", "p", [], ⟨[⟨⟨some ⟨0⟩⟩⟩]⟩⟩], 100000000000⟩).err = none ∧
     (Reconcile (fakeClient noFault) (keyOf "p")
        ⟨[⟨"default", "p", [], ⟨[⟨⟨some ⟨0⟩⟩⟩]⟩⟩], 100000000000⟩).calls
      = [Call.get (keyOf "p")]) ∧
    ((Reconcile (fakeClient noFault) (keyOf "p")
        ⟨[podWith "p" "10" []], 100000000000⟩).err = none ∧
     (Reconcile (fakeClient noFault) (keyOf "p")
        ⟨[podWith "p" "10" []], 100000000000⟩).calls = [Call.get (keyOf "p")]) ∧
    ((Reconcile (fakeClient noFault) (keyOf "p")
        ⟨[⟨"default", "p", [(lifetimeLabel, "10")], ⟨[⟨⟨none⟩⟩]⟩⟩], 100000000000⟩).err = none ∧
     (Reconcile (fakeClient noFault) (keyOf "p")
        ⟨[⟨"default", "p", [(lifetimeLabel, "10")], ⟨[⟨⟨none⟩⟩]⟩⟩], 100000000000⟩).calls
      = [Call.get (keyOf "p")]) :=
  ⟨C5_exempt_pod_not_deleted (fakeClient noFault) (keyOf "p")
      ⟨[⟨"default", "p", [], ⟨[⟨⟨some ⟨0⟩⟩⟩]⟩⟩], 100000000000⟩
      ⟨[⟨"default", "p", [], ⟨[⟨⟨some ⟨0⟩⟩⟩]⟩⟩], 100000000000⟩
      ⟨"default", "p", [], ⟨[⟨⟨some ⟨0⟩⟩⟩]⟩⟩ rfl (Or.inl rfl),
   C5_exempt_pod_not_deleted (fakeClient noFault) (keyOf "p")
      ⟨[podWith "p" "10" []], 100000000000⟩ ⟨[podWith "p" "10" []], 100000000000⟩
      (podWith "p" "10" []) rfl (Or.inr (by decide)),
   C5_exempt_pod_not_deleted (fakeClient noFault) (keyOf "p")
      ⟨[⟨"default", "p", [(lifetimeLabel, "10")], ⟨[⟨⟨none⟩⟩]⟩⟩], 100000000000⟩
      ⟨[⟨"default", "p", [(lifetimeLabel, "10")], ⟨[⟨⟨none⟩⟩]⟩⟩], 100000000000⟩
      ⟨"default", "p", [(lifetimeLabel, "10")], ⟨[⟨⟨none⟩⟩]⟩⟩ rfl (Or.inr (by decide))⟩

/-- Once the object is gone and stays gone, every further invocation only reads,
finds nothing and returns success. -/
theorem reconcileTimes_gone {σ : Type} (r : Client σ) (req : NamespacedName)
    (Gone : σ → Prop)
    (habsent : ∀ t, Gone t →
      (r.Get req t).1 = Except.error APIError.notFound ∧ Gone (r.Get req t).2)
    (n : Nat) :
    ∀ s, Gone s →
      (reconcileTimes r req n s).1 = List.replicate n none ∧
      (reconcileTimes r req n s).2.1 = List.replicate n (Call.get req) := by
  induction n with
  | zero => intro s _; exact ⟨rfl, rfl⟩
  | succ n ih =>
    intro s hs
    obtain ⟨h1, h2⟩ := habsent s hs
    have hget : r.Get req s = (Except.error APIError.notFound, (r.Get req s).2) := by
      rw [← h1]
    have hrec := Reconcile_get_error r req s _ APIError.notFound hget
    obtain ⟨ih1, ih2⟩ := ih (r.Get req s).2 h2
    simp only [reconcileTimes, hrec, ih1, ih2, IgnoreNotFound]
    exact ⟨rfl, rfl⟩

/-- C6: the store holds an expired pod, its delete succeeds, and from then on the
object is absent at read time. Invoking `Reconcile` on that identity `n + 1` times
in succession returns success every time, and exactly one delete call reaches the
store: the first invocation reads and deletes, each later one only reads. -/
theorem C6_reconcile_idempotent {σ : Type} (r : Client σ) (req : NamespacedName)
    (s s1 s2 s3 : σ) (pod : Pod) (now : Time) (Gone : σ → Prop) (n : Nat)
    (hget : r.Get req s = (Except.ok pod, s1)) (hnow : r.Now s1 = (now, s2))
    (hexp : isExpired now pod = true)
    (hdel : r.Delete (ObjectKeyFromObject pod) s2 = (none, s3))
    (hgone : Gone s3)
    (habsent : ∀ t, Gone t →
      (r.Get req t).1 = Except.error APIError.notFound ∧ Gone (r.Get req t).2) :
    (reconcileTimes r req (n + 1) s).1 = List.replicate (n + 1) none ∧
    (reconcileTimes r req (n + 1) s).2.1
      = [Call.get req, Call.delete (ObjectKeyFromObject pod)]
          ++ List.replicate n (Call.get req) ∧
    ((reconcileTimes r req (n + 1) s).2.1.filter Call.isDelete).length = 1 := by
  have hrec := Reconcile_of_isExpired r req s s1 s2 pod now hget hnow hexp
  rw [hdel] at hrec
  obtain ⟨h1, h2⟩ := reconcileTimes_gone r req Gone habsent n s3 hgone
  have hcalls : (reconcileTimes r req (n + 1) s).2.1
      = [Call.get req, Call.delete (ObjectKeyFromObject pod)]
          ++ List.replicate n (Call.get req) := by
    simp only [reconcileTimes, hrec, h2]
  refine ⟨?_, hcalls, ?_⟩
  · simp only [reconcileTimes, hrec, h1]
    rfl
  · rw [hcalls]
    simp [List.filter_append, List.filter_replicate, Call.isDelete]

/-- C6 at the store holding the pod `default/p`, label `"10"`, started at instant
`0`, with the clock at 15 seconds: three invocations in succession. -/
theorem C6_reconcile_idempotent_witness :
    (reconcileTimes (fakeClient noFault) (keyOf "p") 3
        ⟨[podWith "p" "10" [0]], 15000000000⟩).1 = [none, none, none] ∧
    (reconcileTimes (fakeClient noFault) (keyOf "p") 3
        ⟨[podWith "p" "10" [0]], 15000000000⟩).2.1
      = [Call.get (keyOf "p"), Call.delete (keyOf "p"), Call.get (keyOf "p"),
          Call.get (keyOf "p")] ∧
    ((reconcileTimes (fakeClient noFault) (keyOf "p") 3
        ⟨[podWith "p" "10" [0]], 15000000000⟩).2.1.filter Call.isDelete).length = 1 :=
  C6_reconcile_idempotent (fakeClient noFault) (keyOf "p")
    ⟨[podWith "p" "10" [0]], 15000000000⟩ ⟨[podWith "p" "10" [0]], 15000000000⟩
    ⟨[podWith "p" "10" [0]], 15000000000⟩ ⟨[], 15000000000⟩
    (podWith "p" "10" [0]) 15000000000 (fun c => c.pods = []) 2
    rfl rfl (by decide) rfl rfl
    (fun t ht => by
      cases t with
      | mk pods clock =>
        simp only at ht
        subst ht
        exact ⟨rfl, rfl⟩)

/-! ## The claims about the sweep -/

/-- C7: on a store holding pods of distinct identities, in whatever order the list
call returns them and whatever the store answers to the deletes, one sweep tick
issues exactly one delete call for each pod that is expired at the clock reading
(its label parses, a container is running, the reading is later than the latest
start plus the lifetime) and no delete call for any other pod; reordering the store
permutes the delete calls and changes nothing else about them. -/
theorem C7_sweep_deletes_exactly_expired (fault : NamespacedName → Option APIError)
    (ctx : Context) (c : Cluster) (hnd : (c.pods.map ObjectKeyFromObject).Nodup) :
    (recheckExpiredPods (fakeClient fault) ctx [Event.tick] c).calls.filter Call.isDelete
      = (c.pods.filter (fun p => isExpired c.clock p)).map
          (fun p => Call.delete (ObjectKeyFromObject p)) ∧
    (∀ p ∈ c.pods,
      (recheckExpiredPods (fakeClient fault) ctx [Event.tick] c).calls.count
          (Call.delete (ObjectKeyFromObject p))
        = if isExpired c.clock p = true then 1 else 0) ∧
    (∀ k, Call.delete k ∈ (recheckExpiredPods (fakeClient fault) ctx [Event.tick] c).calls →
      ∃ p ∈ c.pods, ObjectKeyFromObject p = k ∧ isExpired c.clock p = true) ∧
    (∀ c' : Cluster, c'.pods.Perm c.pods → c'.clock = c.clock →
      ((recheckExpiredPods (fakeClient fault) ctx [Event.tick] c').calls.filter
          Call.isDelete).Perm
        ((recheckExpiredPods (fakeClient fault) ctx [Event.tick] c).calls.filter
          Call.isDelete)) := by
  have hdel := fake_tick_deletes fault ctx c hnd
  refine ⟨hdel, ?_, ?_, ?_⟩
  · intro p hp
    have hcount : (recheckExpiredPods (fakeClient fault) ctx [Event.tick] c).calls.count
          (Call.delete (ObjectKeyFromObject p))
        = ((recheckExpiredPods (fakeClient fault) ctx [Event.tick] c).calls.filter
            Call.isDelete).count (Call.delete (ObjectKeyFromObject p)) :=
      (List.count_filter (by rfl)).symm
    rw [hcount, hdel]
    exact count_delete_filter c.pods (fun p => isExpired c.clock p) hnd p hp
  · intro k hk
    have hmem : Call.delete k ∈
        (recheckExpiredPods (fakeClient fault) ctx [Event.tick] c).calls.filter
          Call.isDelete :=
      List.mem_filter.mpr ⟨hk, rfl⟩
    rw [hdel] at hmem
    obtain ⟨q, hq, heq⟩ := List.mem_map.mp hmem
    have hkq : ObjectKeyFromObject q = k := by
      injection heq
    exact ⟨q, (List.mem_filter.mp hq).1, hkq, (List.mem_filter.mp hq).2⟩
  · intro c' hperm hclock
    have hnd' : (c'.pods.map ObjectKeyFromObject).Nodup :=
      (List.Perm.nodup_iff (List.Perm.map _ hperm)).mpr hnd
    rw [hdel, fake_tick_deletes fault ctx c' hnd', hclock]
    exact List.Perm.map _ (List.Perm.filter _ hperm)

/-- C7 at a store of three pods with the clock at 100 seconds: `a` expired (label
`"10"`, started at `0`), `b` exempt (no label), `c` unexpired (label `"10"`,
started at 95 seconds). The tick issues one delete call, for `a`. -/
theorem C7_sweep_witness :
    (recheckExpiredPods (fakeClient noFault) Context.Background [Event.tick]
        ⟨[podWith "a" "10" [0], unlabelled "b" [0], podWith "c" "10" [95000000000]],
          100000000000⟩).calls.filter Call.isDelete
      = [Call.delete (keyOf "a")] ∧
    (recheckExpiredPods (fakeClient noFault) Context.Background [Event.tick]
        ⟨[podWith "c" "10" [95000000000], unlabelled "b" [0], podWith "a" "10" [0]],
          100000000000⟩).calls.filter Call.isDelete
      = [Call.delete (keyOf "a")] :=
  ⟨(C7_sweep_deletes_exactly_expired noFault Context.Background
      ⟨[podWith "a" "10" [0], unlabelled "b" [0], podWith "c" "10" [95000000000]],
        100000000000⟩ (by decide)).1.trans (by decide),
   (C7_sweep_deletes_exactly_expired noFault Context.Background
      ⟨[podWith "c" "10" [95000000000], unlabelled "b" [0], podWith "a" "10" [0]],
        100000000000⟩ (by decide)).1.trans (by decide)⟩

/-- What `Reconcile` returns, in full: an error comes back exactly when the read
failed with an error other than NotFound, or the pod read is expired and the delete
failed, with any error, NotFound included. -/
theorem Reconcile_err_iff {σ : Type} (r : Client σ) (req : NamespacedName) (s : σ)
    (e : APIError) :
    (Reconcile r req s).err = some e ↔
      ((r.Get req s).1 = Except.error e ∧ e ≠ APIError.notFound) ∨
      (∃ pod, (r.Get req s).1 = Except.ok pod ∧
        isExpired (r.Now (r.Get req s).2).1 pod = true ∧
        (r.Delete (ObjectKeyFromObject pod) (r.Now (r.Get req s).2).2).1 = some e) := by
  cases hget : r.Get req s with
  | mk res s1 =>
    cases res with
    | error e0 =>
      rw [Reconcile_get_error r req s s1 e0 hget]
      cases e0 with
      | notFound =>
        simp only [IgnoreNotFound]
        constructor
        · intro h; cases h
        · rintro (⟨h1, h2⟩ | ⟨pod, h1, _⟩)
          · injection h1 with h1
            exact absurd h1.symm h2
          · cases h1
      | other msg =>
        simp only [IgnoreNotFound]
        constructor
        · intro h
          injection h with h
          subst h
          exact Or.inl ⟨rfl, by intro hc; cases hc⟩
        · rintro (⟨h1, _⟩ | ⟨pod, h1, _⟩)
          · injection h1 with h1
            rw [h1]
          · cases h1
    | ok pod =>
      cases hexp : isExpired (r.Now s1).1 pod with
      | true =>
        rw [Reconcile_of_isExpired r req s s1 (r.Now s1).2 pod (r.Now s1).1 hget rfl hexp]
        constructor
        · intro h
          exact Or.inr ⟨pod, rfl, hexp, h⟩
        · rintro (⟨h1, _⟩ | ⟨pod', h1, _, h3⟩)
          · cases h1
          · injection h1 with h1
            subst h1
            exact h3
      | false =>
        have h := (Reconcile_of_not_isExpired r req s s1 (r.Now s1).2 pod (r.Now s1).1
          hget rfl hexp).1
        rw [h]
        constructor
        · intro hc; cases hc
        · rintro (⟨h1, _⟩ | ⟨pod', h1, h2, _⟩)
          · cases h1
          · injection h1 with h1
            subst h1
            rw [hexp] at h2
            exact Bool.noConfusion h2

/-- C8 (the code departs from the claim): the pod `default/q` carries the label
`"0"`, its container started at instant `0`, the clock reads one second. The read
succeeds and the only store call that fails is the delete, with NotFound; yet
`Reconcile` returns an error to its caller. -/
theorem C8_error_without_other_failure :
    ((fakeClient (fun _ => some APIError.notFound)).Get (keyOf "q")
        ⟨[podWith "q" "0" [0]], 1000000000⟩).1 = Except.ok (podWith "q" "0" [0]) ∧
    ((fakeClient (fun _ => some APIError.notFound)).Delete (keyOf "q")
        ⟨[podWith "q" "0" [0]], 1000000000⟩).1 = some APIError.notFound ∧
    (Reconcile (fakeClient (fun _ => some APIError.notFound)) (keyOf "q")
        ⟨[podWith "q" "0" [0]], 1000000000⟩).calls
      = [Call.get (keyOf "q"), Call.delete (keyOf "q")] ∧
    (Reconcile (fakeClient (fun _ => some APIError.notFound)) (keyOf "q")
        ⟨[podWith "q" "0" [0]], 1000000000⟩).err = some APIError.notFound :=
  ⟨rfl, rfl, by decide, by decide⟩

/-- C9: no error ends the sweeper's loop, and a failure touches only the invocation
it occurs in. On a tick whose list call fails the sweeper makes that one call, no
reconciliation and no delete, and goes on with the next event. On a tick whose list
call succeeds every listed pod gets its invocation of `Reconcile`, whatever the
invocations before it returned, an expired pod gets its delete, and the sweeper
goes on with the next event. The sweeper returns only when its context is
cancelled. -/
theorem C9_sweeper_survives_errors {σ : Type} (r : Client σ) (ctx : Context)
    (events : List Event) (s : σ) :
    (∀ e s1, r.List s = (Except.error e, s1) →
      recheckExpiredPods r ctx (Event.tick :: events) s
        = ⟨(recheckExpiredPods r ctx events s1).returned,
            Call.list :: (recheckExpiredPods r ctx events s1).calls,
            (recheckExpiredPods r ctx events s1).state⟩) ∧
    (∀ items s1, r.List s = (Except.ok items, s1) →
      recheckExpiredPods r ctx (Event.tick :: events) s
        = ⟨(recheckExpiredPods r ctx events (reconcileItems r items s1).2).returned,
            Call.list :: ((reconcileItems r items s1).1
              ++ (recheckExpiredPods r ctx events (reconcileItems r items s1).2).calls),
            (recheckExpiredPods r ctx events (reconcileItems r items s1).2).state⟩ ∧
      (reconcileItems r items s1).1.filter Call.isGet
        = items.map (fun p => Call.get (ObjectKeyFromObject p)) ∧
      (∀ pre pod post, items = pre ++ pod :: post →
        (reconcileItems r items s1).1
          = (reconcileItems r pre s1).1
            ++ (Reconcile r (ObjectKeyFromObject pod) (reconcileItems r pre s1).2).calls
            ++ (reconcileItems r post
                (Reconcile r (ObjectKeyFromObject pod) (reconcileItems r pre s1).2).state).1 ∧
        (∀ s2 s3 now,
          r.Get (ObjectKeyFromObject pod) (reconcileItems r pre s1).2 = (Except.ok pod, s2) →
          r.Now s2 = (now, s3) → isExpired now pod = true →
          Call.delete (ObjectKeyFromObject pod) ∈ (reconcileItems r items s1).1))) ∧
    ((recheckExpiredPods r ctx events s).returned = true ↔
      ctx = Context.WithCancel ∧ Event.cancel ∈ events) := by
  refine ⟨?_, ?_, recheck_returned_iff r ctx events s⟩
  · intro e s1 hlist
    simp only [recheckExpiredPods, hlist]
  · intro items s1 hlist
    refine ⟨by simp only [recheckExpiredPods, hlist], reconcileItems_gets r items s1, ?_⟩
    intro pre pod post hitems
    have hsplit : (reconcileItems r items s1).1
          = (reconcileItems r pre s1).1
            ++ (Reconcile r (ObjectKeyFromObject pod) (reconcileItems r pre s1).2).calls
            ++ (reconcileItems r post
                (Reconcile r (ObjectKeyFromObject pod) (reconcileItems r pre s1).2).state).1 := by
      rw [hitems, reconcileItems_append]
      simp only [reconcileItems, List.append_assoc]
    refine ⟨hsplit, ?_⟩
    intro s2 s3 now hget hnow hexp
    rw [hsplit, Reconcile_of_isExpired r _ _ s2 s3 pod now hget hnow hexp]
    simp

/-- C9 at two ticks: with a list call that fails, each tick makes the list call and
nothing else; with a store that answers the delete of the expired pod `a` with an
error, the expired pod `b` listed after it is still read and deleted. -/
theorem C9_sweeper_witness :
    recheckExpiredPods (failingList (fakeClient noFault) (APIError.other "timeout"))
        Context.Background [Event.tick, Event.tick]
        ⟨[podWith "a" "10" [0]], 100000000000⟩
      = ⟨false, [Call.list, Call.list], ⟨[podWith "a" "10" [0]], 100000000000⟩⟩ ∧
    Call.delete (keyOf "b") ∈
      (reconcileItems
        (fakeClient (fun k => if k = keyOf "a" then some (APIError.other "refused") else none))
        [podWith "a" "10" [0], podWith "b" "10" [0]]
        ⟨[podWith "a" "10" [0], podWith "b" "10" [0]], 100000000000⟩).1 :=
  ⟨(C9_sweeper_survives_errors
      (failingList (fakeClient noFault) (APIError.other "timeout"))
      Context.Background [Event.tick] ⟨[podWith "a" "10" [0]], 100000000000⟩).1
      (APIError.other "timeout") ⟨[podWith "a" "10" [0]], 100000000000⟩ rfl,
   ((C9_sweeper_survives_errors
      (fakeClient (fun k => if k = keyOf "a" then some (APIError.other "refused") else none))
      Context.Background []
      ⟨[podWith "a" "10" [0], podWith "b" "10" [0]], 100000000000⟩).2.1
      [podWith "a" "10" [0], podWith "b" "10" [0]]
      ⟨[podWith "a" "10" [0], podWith "b" "10" [0]], 100000000000⟩ rfl).2.2
      [podWith "a" "10" [0]] (podWith "b" "10" [0]) [] rfl |>.2
      ⟨[podWith "a" "10" [0], podWith "b" "10" [0]], 100000000000⟩
      ⟨[podWith "a" "10" [0], podWith "b" "10" [0]], 100000000000⟩ 100000000000
      rfl rfl (by decide)⟩

/-- C10 (the code departs from the claim): the registration call starts the sweeper
under `context.Background()`, which no signal cancels. Whatever the events, that
sweeper never returns; in particular, on a store holding the expired pod
`default/p`, after the cancellation signal has fired the next tick still lists,
reads and deletes. -/
theorem C10_setup_sweeper_ignores_cancel :
    SetupWithManager.sweeperContext = Context.Background ∧
    (∀ (events : List Event) (c : Cluster),
      (recheckExpiredPods (fakeClient noFault) SetupWithManager.sweeperContext
        events c).returned = false) ∧
    (recheckExpiredPods (fakeClient noFault) SetupWithManager.sweeperContext
        [Event.cancel, Event.tick] ⟨[podWith "p" "10" [0]], 15000000000⟩).calls
      = [Call.list, Call.get (keyOf "p"), Call.delete (keyOf "p")] :=
  ⟨rfl,
   fun events c => recheck_background_never_returns (fakeClient noFault) events c,
   by decide⟩

end PodDeleter
